import Mathlib

/-!
Shallow embedding of the ready-food-farm Express/Mongoose backend
(`src/src/index.ts` and the route/model revisions under `src/unnamed/`).
Route handlers become pure functions over explicit list-based document
stores; JS numbers that the code treats as counts/prices become `Int`,
object ids become `String`, and a MongoDB/JS `undefined`/`null` becomes
`Option`.
-/

namespace ReadyFoodFarm

/-- The pricing subdocument of `ProductModel`: `regular` required, `discount`
optional (missing or null modelled as `none`). -/
structure Pricing where
  regular : Int
  discount : Option Int
deriving DecidableEq, Repr

/-- A Product document (the fields the verified routes read). -/
structure Product where
  id : String
  name : String
  slug : String
  pricing : Pricing
  createdAt : Nat
  stock : Int
  status : Bool
deriving DecidableEq, Repr

/-- One entry of `User.cart` (`CartItemSchema`): a product reference plus a
quantity. -/
structure CartItem where
  product : String
  quantity : Int
deriving DecidableEq, Repr

/-- A User document per `src/src/models/UserModel.ts` (`id` plays the
mongoose `_id`). -/
structure User where
  id : String
  uid : String
  name : String
  email : String
  phone : String
  image : Option String
  role : String
  cart : List CartItem
  wishlist : List String
deriving DecidableEq, Repr

/-- One entry of `Order.items` (`OrderItemSchema`): product reference,
quantity, and the price frozen at order time. -/
structure OrderItem where
  product : String
  quantity : Int
  price : Int
deriving DecidableEq, Repr

/-- An Order document per `src/src/models/OrderModel.ts`
(shippingAddress kept abstract as the caller-supplied string). -/
structure Order where
  user : String
  items : List OrderItem
  totalAmount : Int
  shippingAddress : String
  paymentStatus : String
  orderStatus : String
deriving DecidableEq, Repr

/-- A Category document per the `CategoryModel` revisions: id, name, slug,
and an optional self-referential `parentId`. -/
structure Category where
  id : String
  name : String
  slug : String
  parentId : Option String
deriving DecidableEq, Repr

/-! ## Cart: POST /api/cart (src/src/index.ts lines 125-160) -/

/-- The expression Number(quantity) || 1 on the new-item branch of POST /api/cart:
an omitted quantity (`Number(undefined)` is `NaN`, falsy) and an explicit
`0` (falsy) both fall through to `1`; any other number is kept. -/
def numberOr1 (q : Option Int) : Int :=
  match q with
  | some n => if n = 0 then 1 else n
  | none => 1

/-- The found-item branch of POST /api/cart: the first cart line whose
`product` equals `pid` gets its quantity set (when a quantity was given)
or incremented by 1 (when it was omitted); other lines are untouched. -/
def updateFirst (cart : List CartItem) (pid : String) (q : Option Int) :
    List CartItem :=
  match cart with
  | [] => []
  | item :: rest =>
    if item.product = pid then
      (match q with
       | some n => { item with quantity := n }
       | none => { item with quantity := item.quantity + 1 }) :: rest
    else item :: updateFirst rest pid q

/-- POST /api/cart on the caller's cart: if `findIndex` locates the product,
set or increment its quantity; otherwise push `{product, quantity:
Number(quantity) || 1}`; finally `filter(item => item.quantity > 0)`. -/
def cartPost (cart : List CartItem) (pid : String) (q : Option Int) :
    List CartItem :=
  let mutated :=
    if cart.any (fun item => item.product = pid) then updateFirst cart pid q
    else cart ++ [⟨pid, numberOr1 q⟩]
  mutated.filter (fun item => 0 < item.quantity)

/-- The quantity stored for `pid` in a cart, `none` when absent. -/
def qtyOf (cart : List CartItem) (pid : String) : Option Int :=
  (cart.find? (fun item => item.product = pid)).map (fun item => item.quantity)

/-! ## Users: POST /api/users (src/src/index.ts lines 68-82) -/

/-- The JSON body a users-POST response carries: either a plain message or
a user document. -/
inductive UsersPostBody where
  | message (s : String)
  | user (u : User)
deriving DecidableEq, Repr

/-- POST /api/users: `findOne({email})`; when a user with that email exists
respond 200 with the literal message body and store nothing; otherwise
save the new user and respond 201 with it. -/
def usersPost (users : List User) (body : User) :
    (Nat × UsersPostBody) × List User :=
  match users.find? (fun u => u.email = body.email) with
  | some _ => ((200, UsersPostBody.message "User already exists."), users)
  | none => ((201, UsersPostBody.user body), users ++ [body])

/-! ## Categories: DELETE /api/categories/:id, two revisions -/

/-- DELETE /api/categories/:id in `src/src/index.ts` lines 283-292:
`findByIdAndDelete` only — 404 when the id is unknown, otherwise the
category is removed and nothing else is touched. -/
def categoriesDeleteMain (cats : List Category) (id : String) :
    Nat × List Category :=
  if cats.any (fun c => decide (c.id = id)) then
    (200, cats.filter (fun c => decide (c.id ≠ id)))
  else (404, cats)

/-- DELETE /api/categories/:id in `src/unnamed/part_000` lines 114-131:
`findByIdAndDelete`, then `updateMany({parentId: id}, {$set: {parentId:
null}})` on the remaining categories. -/
def categoriesDeleteOrphan (cats : List Category) (id : String) :
    Nat × List Category :=
  if cats.any (fun c => decide (c.id = id)) then
    (200, (cats.filter (fun c => decide (c.id ≠ id))).map
      (fun c => if c.parentId = some id then { c with parentId := none } else c))
  else (404, cats)

/-! ## Products: GET /api/products/deals (src/src/index.ts lines 348-358) -/

/-- The mongo deals filter: pricing.discount exists and is not null, and an
$expr comparison requires discount < regular — so the discount is
present (and not null) and strictly below the regular price. -/
def isDeal (p : Product) : Bool :=
  match p.pricing.discount with
  | some d => decide (d < p.pricing.regular)
  | none => false

/-- Insert a product into a list already sorted newest-first, keeping it
sorted (models `.sort({createdAt: -1})`). -/
def insertByNewest (p : Product) : List Product → List Product
  | [] => [p]
  | q :: rest =>
    if q.createdAt ≤ p.createdAt then p :: q :: rest
    else q :: insertByNewest p rest

/-- Sort products newest-first by `createdAt`. -/
def sortByNewest : List Product → List Product
  | [] => []
  | p :: rest => insertByNewest p (sortByNewest rest)

/-- GET /api/products/deals: filter to deals, sort newest first, and
`.limit(10)`. -/
def dealsHandler (ps : List Product) : List Product :=
  (sortByNewest (ps.filter isDeal)).take 10

/-! ## Orders: POST /api/orders (src/src/index.ts lines 458-515) -/

/-- The whole document store the order routes touch. -/
structure DB where
  users : List User
  products : List Product
  orders : List Order
deriving DecidableEq, Repr

/-- The expression product.pricing.discount || product.pricing.regular with JS
truthiness: a missing/null discount AND a discount of exactly 0 (falsy)
both yield the regular price. -/
def jsOrPrice (discount : Option Int) (regular : Int) : Int :=
  match discount with
  | some d => if d = 0 then regular else d
  | none => regular

/-- Population of cart.product on one cart line: resolve the product
reference against the Products collection (`none` when it does not
resolve), keeping the quantity. -/
def resolveLine (products : List Product) (ci : CartItem) :
    Option Product × Int :=
  (products.find? (fun p => decide (p.id = ci.product)), ci.quantity)

/-- One iteration of the item-building loop of POST /api/orders: a line
whose product resolved to an object pushes `{product, quantity, price}` and
accumulates `totalAmount += price * quantity`; an unresolved line is
skipped. -/
def orderStep (acc : List OrderItem × Int) (line : Option Product × Int) :
    List OrderItem × Int :=
  match line.1 with
  | some p =>
    let price := jsOrPrice p.pricing.discount p.pricing.regular
    (acc.1 ++ [⟨p.id, line.2, price⟩], acc.2 + price * line.2)
  | none => acc

/-- The item-building loop of POST /api/orders over the resolved cart,
starting from no items and totalAmount 0. -/
def orderLoop (lines : List (Option Product × Int)) : List OrderItem × Int :=
  lines.foldl orderStep ([], 0)

/-- POST /api/orders: find the caller by email (cart populated); 400 when
the user is missing or the cart is empty; otherwise build the items and
total, save the new pending order, then clear the caller's cart. -/
def ordersPost (db : DB) (email : String) (shipping : String) : Nat × DB :=
  match db.users.find? (fun u => u.email = email) with
  | none => (400, db)
  | some user =>
    if user.cart.isEmpty then (400, db)
    else
      let built := orderLoop (user.cart.map (resolveLine db.products))
      let newOrder : Order :=
        ⟨user.id, built.1, built.2, shipping, "pending", "pending"⟩
      (201,
        { db with
          orders := db.orders ++ [newOrder],
          users := db.users.map
            (fun u => if u.id = user.id then { u with cart := [] } else u) })

/-- A later product-pricing change (the pricing part of
`PATCH /api/products/:id`, `findByIdAndUpdate`): rewrites the matching
product document and touches nothing else. -/
def updateProductPricing (db : DB) (pid : String) (pr : Pricing) : DB :=
  { db with
    products := db.products.map
      (fun p => if p.id = pid then { p with pricing := pr } else p) }

/-! ## generateSlug (src/unnamed/part_000 lines 23-31) -/

/-- JS `\s` on the characters the model ranges over: space, tab, newline,
carriage return, vertical tab, form feed. -/
def isSpaceJS (c : Char) : Bool :=
  c == ' ' || c == '\t' || c == '\n' || c == '\r' ||
    c == Char.ofNat 11 || c == Char.ofNat 12

/-- The character class `[a-z0-9\s-]` kept by the strip step. -/
def isKeep (c : Char) : Bool :=
  (('a' ≤ c && c ≤ 'z') || ('0' ≤ c && c ≤ '9')) || (isSpaceJS c || c == '-')

/-- Replacement of every ampersand by the word and. -/
def replaceAmp : List Char → List Char
  | [] => []
  | c :: rest => if c = '&' then 'a' :: 'n' :: 'd' :: replaceAmp rest
    else c :: replaceAmp rest

/-- Run-collapsing replacement for a character class `p`: each maximal run of
`p`-characters becomes a single hyphen. The flag records whether the
previous character was in the run. -/
def squashRuns (p : Char → Bool) : Bool → List Char → List Char
  | _, [] => []
  | inRun, c :: rest =>
    if p c then
      (if inRun then [] else ['-']) ++ squashRuns p true rest
    else c :: squashRuns p false rest

/-- The sanitised base of `generateSlug`: lowercase, `&`→`and`, strip
`[^a-z0-9\s-]`, collapse `\s+` runs to `-`, collapse `-+` runs to `-`. -/
def baseSlug (name : List Char) : List Char :=
  squashRuns (fun c => c == '-') false
    (squashRuns isSpaceJS false
      ((replaceAmp (name.map Char.toLower)).filter isKeep))

/-- JS decimal rendering of the `Date.now()` timestamp. -/
def natToDigitChars (n : Nat) : List Char :=
  if n = 0 then ['0']
  else (Nat.digits 10 n).reverse.map (fun d => Char.ofNat (48 + d))

/-- The function generateSlug, with the Date.now millisecond value made an
explicit argument: binds the processed base to the timestamp with a
hyphen. -/
def generateSlug (name : List Char) (now : Nat) : List Char :=
  baseSlug name ++ '-' :: natToDigitChars now

/-- A character admitted by `[a-z0-9-]`. -/
def isSlugChar (c : Char) : Bool :=
  ('a' ≤ c && c ≤ 'z') || ('0' ≤ c && c ≤ '9') || c == '-'

/-- The regex `^[a-z0-9-]+-\d+$` as a predicate: a non-empty run of slug
characters, a hyphen, then a non-empty run of digits. -/
def MatchesSlugPattern (l : List Char) : Prop :=
  ∃ a b, l = a ++ '-' :: b ∧ a ≠ [] ∧ (∀ c ∈ a, isSlugChar c = true) ∧
    b ≠ [] ∧ ∀ c ∈ b, c.isDigit = true

/-! ## Cart lemmas -/

lemma qtyOf_cons_of_ne (item : CartItem) (l : List CartItem) (pid : String)
    (h : item.product ≠ pid) : qtyOf (item :: l) pid = qtyOf l pid := by
  unfold qtyOf
  rw [List.find?_cons_of_neg _ (by simpa using h)]

lemma qtyOf_eq_none_of_absent (l : List CartItem) (pid : String)
    (h : ∀ i ∈ l, i.product ≠ pid) : qtyOf l pid = none := by
  unfold qtyOf
  rw [List.find?_eq_none.mpr (fun x hx => by simpa using h x hx)]
  rfl

lemma qtyOf_filter_pos_of_absent (l : List CartItem) (pid : String)
    (h : ∀ i ∈ l, i.product ≠ pid) :
    qtyOf (l.filter (fun i => 0 < i.quantity)) pid = none :=
  qtyOf_eq_none_of_absent _ _ (fun i hi => h i (List.mem_filter.mp hi).1)

lemma qtyOf_append_left_absent (l₁ l₂ : List CartItem) (pid : String)
    (h : ∀ i ∈ l₁, i.product ≠ pid) :
    qtyOf (l₁ ++ l₂) pid = qtyOf l₂ pid := by
  induction l₁ with
  | nil => rfl
  | cons a t ih =>
    rw [List.cons_append, qtyOf_cons_of_ne _ _ _ (h a (List.mem_cons_self a t))]
    exact ih (fun i hi => h i (List.mem_cons_of_mem _ hi))

lemma cartPost_all_pos (cart : List CartItem) (pid : String) (q : Option Int) :
    ∀ item ∈ cartPost cart pid q, 0 < item.quantity := by
  intro item h
  unfold cartPost at h
  have := (List.mem_filter.mp h).2
  simpa using this

lemma cartPost_of_absent (cart : List CartItem) (pid : String) (q : Option Int)
    (h : ∀ i ∈ cart, i.product ≠ pid) :
    cartPost cart pid q =
      (cart ++ [CartItem.mk pid (numberOr1 q)]).filter
        (fun i => 0 < i.quantity) := by
  unfold cartPost
  have hany : cart.any (fun i => i.product = pid) = false := by
    simp only [List.any_eq_false]
    intro i hi
    simpa using h i hi
  simp [hany]

lemma qtyOf_cartPost_absent (cart : List CartItem) (pid : String)
    (q : Option Int) (h : ∀ i ∈ cart, i.product ≠ pid) :
    qtyOf (cartPost cart pid q) pid =
      if 0 < numberOr1 q then some (numberOr1 q) else none := by
  rw [cartPost_of_absent cart pid q h, List.filter_append]
  rw [qtyOf_append_left_absent _ _ _
    (fun i hi => h i (List.mem_filter.mp hi).1)]
  by_cases hq : 0 < numberOr1 q
  · rw [if_pos hq]
    simp [List.filter_cons, hq, qtyOf, List.find?]
  · rw [if_neg hq]
    simp [List.filter_cons, hq, qtyOf]

lemma qtyOf_cartPost_present_set (cart : List CartItem) (pid : String)
    (n : Int) (hnd : (cart.map CartItem.product).Nodup)
    (hp : cart.any (fun i => i.product = pid) = true) :
    qtyOf (cartPost cart pid (some n)) pid =
      if 0 < n then some n else none := by
  induction cart with
  | nil => simp at hp
  | cons item rest ih =>
    rw [List.map_cons, List.nodup_cons] at hnd
    unfold cartPost
    rw [if_pos hp]
    unfold updateFirst
    by_cases hi : item.product = pid
    · rw [if_pos hi]
      by_cases hn : 0 < n
      · rw [if_pos hn]
        simp [List.filter_cons, hn, qtyOf, List.find?, hi]
      · rw [if_neg hn]
        rw [List.filter_cons, if_neg (by simpa using hn)]
        refine qtyOf_filter_pos_of_absent rest pid ?_
        intro i hmem heq
        have hm : i.product ∈ rest.map CartItem.product :=
          List.mem_map_of_mem _ hmem
        rw [heq, ← hi] at hm
        exact hnd.1 hm
    · rw [if_neg hi]
      have hrest : rest.any (fun i => i.product = pid) = true := by
        rcases List.any_eq_true.mp hp with ⟨x, hx, hxp⟩
        rcases List.mem_cons.mp hx with h1 | h1
        · exact absurd (by simpa [h1] using hxp) hi
        · exact List.any_eq_true.mpr ⟨x, h1, hxp⟩
      have hcp : (updateFirst rest pid (some n)).filter
          (fun i => 0 < i.quantity) = cartPost rest pid (some n) := by
        unfold cartPost
        rw [if_pos hrest]
      rw [List.filter_cons]
      by_cases hqq : (0 : Int) < item.quantity
      · rw [if_pos (by simpa using hqq)]
        rw [qtyOf_cons_of_ne _ _ _ hi, hcp]
        exact ih hnd.2 hrest
      · rw [if_neg (by simpa using hqq)]
        rw [hcp]
        exact ih hnd.2 hrest

lemma qtyOf_cartPost_present_inc (cart : List CartItem) (pid : String)
    (old : Int) (hnd : (cart.map CartItem.product).Nodup)
    (hpos : ∀ i ∈ cart, 0 < i.quantity)
    (hq : qtyOf cart pid = some old) :
    qtyOf (cartPost cart pid none) pid = some (old + 1) := by
  induction cart with
  | nil => simp [qtyOf] at hq
  | cons item rest ih =>
    rw [List.map_cons, List.nodup_cons] at hnd
    have hp : (item :: rest).any (fun i => i.product = pid) = true := by
      rcases Option.map_eq_some'.mp hq with ⟨x, hx, _⟩
      have hpx := List.find?_some hx
      exact List.any_eq_true.mpr ⟨x, List.mem_of_find?_eq_some hx, hpx⟩
    unfold cartPost
    rw [if_pos hp]
    unfold updateFirst
    by_cases hi : item.product = pid
    · have hold : item.quantity = old := by
        unfold qtyOf at hq
        rw [List.find?_cons_of_pos _ (by simpa using hi)] at hq
        simpa using hq
      have hpos1 : (0 : Int) < item.quantity + 1 := by
        have := hpos item (List.mem_cons_self _ _)
        omega
      rw [if_pos hi]
      rw [List.filter_cons, if_pos (by simpa using hpos1)]
      unfold qtyOf
      rw [List.find?_cons_of_pos _ (by simpa using hi)]
      simp [hold]
    · have hq' : qtyOf rest pid = some old := by
        unfold qtyOf at hq ⊢
        rwa [List.find?_cons_of_neg _ (by simpa using hi)] at hq
      have hrest : rest.any (fun i => i.product = pid) = true := by
        rcases Option.map_eq_some'.mp hq' with ⟨x, hx, _⟩
        have hpx := List.find?_some hx
        exact List.any_eq_true.mpr ⟨x, List.mem_of_find?_eq_some hx, hpx⟩
      have hcp : (updateFirst rest pid none).filter
          (fun i => 0 < i.quantity) = cartPost rest pid none := by
        unfold cartPost
        rw [if_pos hrest]
      rw [if_neg hi]
      rw [List.filter_cons]
      by_cases hqq : (0 : Int) < item.quantity
      · rw [if_pos (by simpa using hqq)]
        rw [qtyOf_cons_of_ne _ _ _ hi, hcp]
        exact ih hnd.2 (fun i h2 => hpos i (List.mem_cons_of_mem _ h2)) hq'
      · rw [if_neg (by simpa using hqq)]
        rw [hcp]
        exact ih hnd.2 (fun i h2 => hpos i (List.mem_cons_of_mem _ h2)) hq'

/-- C3: POST /api/cart on a well-formed cart (unique product keys, positive
quantities): a present product's quantity is replaced by a given quantity
and incremented by 1 when the quantity is omitted; an absent product is
inserted with `Number(quantity) || 1`; every line with quantity ≤ 0 is then
dropped; in particular two quantity-less adds to an empty cart store
quantity 2, and an explicit quantity 0 on a present product removes it. -/
theorem cart_post_semantics (cart : List CartItem) (pid : String)
    (hnd : (cart.map CartItem.product).Nodup)
    (hpos : ∀ i ∈ cart, 0 < i.quantity) :
    (∀ old n, qtyOf cart pid = some old →
      qtyOf (cartPost cart pid (some n)) pid =
        if 0 < n then some n else none) ∧
    (∀ old, qtyOf cart pid = some old →
      qtyOf (cartPost cart pid none) pid = some (old + 1)) ∧
    (qtyOf cart pid = none →
      ∀ q, qtyOf (cartPost cart pid q) pid =
        if 0 < numberOr1 q then some (numberOr1 q) else none) ∧
    (∀ q, ∀ item ∈ cartPost cart pid q, 0 < item.quantity) ∧
    cartPost (cartPost [] pid none) pid none = [CartItem.mk pid 2] ∧
    (∀ old, qtyOf cart pid = some old →
      qtyOf (cartPost cart pid (some 0)) pid = none) := by
  have hpresent : ∀ old, qtyOf cart pid = some old →
      cart.any (fun i => i.product = pid) = true := by
    intro old hq
    rcases Option.map_eq_some'.mp hq with ⟨x, hx, _⟩
    have hpx := List.find?_some hx
    exact List.any_eq_true.mpr ⟨x, List.mem_of_find?_eq_some hx, hpx⟩
  refine ⟨?_, ?_, ?_, ?_, ?_, ?_⟩
  · intro old n hq
    exact qtyOf_cartPost_present_set cart pid n hnd (hpresent old hq)
  · intro old hq
    exact qtyOf_cartPost_present_inc cart pid old hnd hpos hq
  · intro hq q
    refine qtyOf_cartPost_absent cart pid q ?_
    have := Option.map_eq_none'.mp hq
    intro i hi
    simpa using List.find?_eq_none.mp this i hi
  · intro q
    exact cartPost_all_pos cart pid q
  · have h1 : cartPost [] pid none = [CartItem.mk pid 1] := by
      simp +decide [cartPost, numberOr1]
    rw [h1]
    simp +decide [cartPost, updateFirst, List.filter_cons]
  · intro old hq
    rw [qtyOf_cartPost_present_set cart pid 0 hnd (hpresent old hq)]
    simp

/-- Witness for `cart_post_semantics` at a concrete cart. -/
theorem cart_post_semantics_witness :
    (([CartItem.mk "a" 2].map CartItem.product).Nodup ∧
      ∀ i ∈ [CartItem.mk "a" 2], 0 < i.quantity) ∧
    qtyOf (cartPost [CartItem.mk "a" 2] "p" none) "p" = some 1 := by
  refine ⟨⟨by decide, by decide⟩, ?_⟩
  have h := (cart_post_semantics [CartItem.mk "a" 2] "p" (by decide)
    (by decide)).2.2.1 (by decide) none
  simpa [numberOr1] using h

/-- C10: POST /api/cart when the product is not yet in a well-formed cart:
an explicit quantity 0 falls through `Number(quantity) || 1` and inserts
the product with quantity 1 (the cart is not left unchanged), while a
negative explicit quantity is inserted and then dropped by the
`quantity > 0` filter, leaving the cart unchanged. -/
theorem cart_post_new_item_zero_and_negative (cart : List CartItem)
    (pid : String) (hpos : ∀ i ∈ cart, 0 < i.quantity)
    (habs : ∀ i ∈ cart, i.product ≠ pid) :
    cartPost cart pid (some 0) = cart ++ [CartItem.mk pid 1] ∧
    qtyOf (cartPost cart pid (some 0)) pid = some 1 ∧
    ∀ n : Int, n < 0 → cartPost cart pid (some n) = cart := by
  have hfc : cart.filter (fun i => 0 < i.quantity) = cart :=
    List.filter_eq_self.mpr (fun a ha => by simpa using hpos a ha)
  refine ⟨?_, ?_, ?_⟩
  · rw [cartPost_of_absent cart pid (some 0) habs, List.filter_append, hfc]
    simp +decide [numberOr1, List.filter_cons]
  · rw [qtyOf_cartPost_absent cart pid (some 0) habs]
    simp [numberOr1]
  · intro n hn
    rw [cartPost_of_absent cart pid (some n) habs, List.filter_append, hfc]
    have h0 : numberOr1 (some n) = n := by
      simp [numberOr1]
      omega
    have hfn : ([CartItem.mk pid (numberOr1 (some n))].filter
        (fun i => 0 < i.quantity)) = [] := by
      rw [h0]
      simp [List.filter_cons]
      omega
    rw [hfn, List.append_nil]

/-- Witness for `cart_post_new_item_zero_and_negative` at a concrete
cart. -/
theorem cart_post_new_item_zero_and_negative_witness :
    ((∀ i ∈ [CartItem.mk "a" 2], 0 < i.quantity) ∧
      ∀ i ∈ [CartItem.mk "a" 2], i.product ≠ "p") ∧
    cartPost [CartItem.mk "a" 2] "p" (some 0) =
      [CartItem.mk "a" 2, CartItem.mk "p" 1] := by
  refine ⟨⟨by decide, by decide⟩, ?_⟩
  have h := (cart_post_new_item_zero_and_negative [CartItem.mk "a" 2] "p"
    (by decide) (by decide)).1
  simpa using h

/-! ## Users POST: C4 -/

/-- An already-stored user for concrete runs. -/
def sampleUser : User :=
  ⟨"u1", "uid1", "Alice", "alice@mail", "017", none, "user", [], []⟩

/-- A POST /api/users body carrying the same email as `sampleUser`. -/
def sampleBody : User :=
  ⟨"u9", "uid9", "Alice Again", "alice@mail", "018", none, "user", [], []⟩

/-- C4 counterexample: on an existing email the handler responds 200 with
the literal message body, so no `UsersPostBody.user` (in particular not the
existing user document) is returned, contrary to the claim. -/
theorem users_post_existing_returns_message_not_user :
    (usersPost [sampleUser] sampleBody).1 =
      (200, UsersPostBody.message "User already exists.") ∧
    ∀ u : User,
      (usersPost [sampleUser] sampleBody).1.2 ≠ UsersPostBody.user u := by
  constructor
  · decide
  · intro u h
    have hm : (usersPost [sampleUser] sampleBody).1.2 =
        UsersPostBody.message "User already exists." := by decide
    rw [hm] at h
    exact UsersPostBody.noConfusion h

/-- C4 (amended): POST /api/users is an upsert-by-email — an existing email
gets status 200 with the `User already exists.` message (not the user
document) and no document is created; a fresh email gets status 201 with
the created user appended to the store. -/
theorem users_post_upsert_by_email (users : List User) (body : User) :
    ((∃ u ∈ users, u.email = body.email) →
      usersPost users body =
        ((200, UsersPostBody.message "User already exists."), users)) ∧
    ((∀ u ∈ users, u.email ≠ body.email) →
      usersPost users body =
        ((201, UsersPostBody.user body), users ++ [body])) := by
  constructor
  · rintro ⟨u, hu, he⟩
    have hs : (users.find? (fun v => v.email = body.email)).isSome := by
      rw [List.find?_isSome]
      exact ⟨u, hu, by simpa using he⟩
    rcases Option.isSome_iff_exists.mp hs with ⟨w, hw⟩
    simp [usersPost, hw]
  · intro h
    have hf : users.find? (fun v => v.email = body.email) = none :=
      List.find?_eq_none.mpr (fun x hx => by simpa using h x hx)
    simp [usersPost, hf]

/-- Witness for `users_post_upsert_by_email` on concrete stores: the
existing-email branch and the fresh-email branch. -/
theorem users_post_upsert_by_email_witness :
    ((∃ u ∈ [sampleUser], u.email = sampleBody.email) ∧
      usersPost [sampleUser] sampleBody =
        ((200, UsersPostBody.message "User already exists."), [sampleUser])) ∧
    ((∀ u ∈ ([] : List User), u.email ≠ sampleBody.email) ∧
      usersPost [] sampleBody =
        ((201, UsersPostBody.user sampleBody), [sampleBody])) := by
  constructor
  · exact ⟨by decide, (users_post_upsert_by_email [sampleUser] sampleBody).1
      (by decide)⟩
  · exact ⟨by simp, by
      have h := (users_post_upsert_by_email [] sampleBody).2 (by simp)
      simpa using h⟩

/-! ## Categories DELETE: C2 -/

/-- A parent category for concrete runs. -/
def catParent : Category := ⟨"c1", "Drinks", "drinks", none⟩

/-- A child category whose `parentId` references `catParent`. -/
def catChild : Category := ⟨"c2", "Juices", "juices", some "c1"⟩

/-- C2 counterexample: the `src/src/index.ts` DELETE handler succeeds (200)
and removes the parent, but the surviving child still carries
`parentId = some "c1"` — it is not nulled as the claim states. -/
theorem categories_delete_main_leaves_parentId :
    (categoriesDeleteMain [catParent, catChild] "c1").1 = 200 ∧
    (categoriesDeleteMain [catParent, catChild] "c1").2 = [catChild] ∧
    catChild.parentId = some "c1" ∧
    some "c1" ≠ (none : Option String) := by
  decide

/-- C2 (amended): the `part_000` DELETE handler implements the orphan rule —
on success the referenced parent is removed, every child that pointed at it
survives with `parentId` nulled, and no other category is deleted (never
cascading); the `src/src/index.ts` handler also never cascades but leaves
children's `parentId` unchanged. -/
theorem categories_delete_orphan_rule (cats : List Category) (C D : Category)
    (hC : C ∈ cats) (hD : D ∈ cats) (hpar : D.parentId = some C.id)
    (hne : D.id ≠ C.id) :
    ((categoriesDeleteOrphan cats C.id).1 = 200 ∧
      (∃ D2 ∈ (categoriesDeleteOrphan cats C.id).2,
        D2.id = D.id ∧ D2.name = D.name ∧ D2.slug = D.slug ∧
          D2.parentId = none) ∧
      (∀ E ∈ cats, E.id ≠ C.id →
        ∃ E2 ∈ (categoriesDeleteOrphan cats C.id).2, E2.id = E.id) ∧
      ∀ E2 ∈ (categoriesDeleteOrphan cats C.id).2, E2.id ≠ C.id) ∧
    ((categoriesDeleteMain cats C.id).1 = 200 ∧
      D ∈ (categoriesDeleteMain cats C.id).2 ∧
      ∀ E ∈ cats, E.id ≠ C.id → E ∈ (categoriesDeleteMain cats C.id).2) := by
  have hany : cats.any (fun c => decide (c.id = C.id)) = true :=
    List.any_eq_true.mpr ⟨C, hC, by simp⟩
  have hmain : categoriesDeleteMain cats C.id =
      (200, cats.filter (fun c => decide (c.id ≠ C.id))) := by
    unfold categoriesDeleteMain
    rw [if_pos hany]
  have horph : categoriesDeleteOrphan cats C.id =
      (200, (cats.filter (fun c => decide (c.id ≠ C.id))).map
        (fun c => if c.parentId = some C.id then { c with parentId := none }
          else c)) := by
    unfold categoriesDeleteOrphan
    rw [if_pos hany]
  refine ⟨⟨by rw [horph], ?_, ?_, ?_⟩, by rw [hmain], ?_, ?_⟩
  · rw [horph]
    refine ⟨{ D with parentId := none }, ?_, rfl, rfl, rfl, rfl⟩
    have hDf : D ∈ cats.filter (fun c => decide (c.id ≠ C.id)) :=
      List.mem_filter.mpr ⟨hD, by simpa using hne⟩
    have := List.mem_map_of_mem
      (fun c => if c.parentId = some C.id then { c with parentId := none }
        else c) hDf
    simpa [hpar] using this
  · intro E hE hEne
    rw [horph]
    have hEf : E ∈ cats.filter (fun c => decide (c.id ≠ C.id)) :=
      List.mem_filter.mpr ⟨hE, by simpa using hEne⟩
    refine ⟨if E.parentId = some C.id then { E with parentId := none } else E,
      List.mem_map_of_mem _ hEf, ?_⟩
    by_cases h : E.parentId = some C.id <;> simp [h]
  · intro E2 hE2
    rw [horph] at hE2
    rcases List.mem_map.mp hE2 with ⟨E, hEf, hEeq⟩
    have hEne : E.id ≠ C.id := by
      have := (List.mem_filter.mp hEf).2
      simpa using this
    rw [← hEeq]
    by_cases h : E.parentId = some C.id <;> simp [h, hEne]
  · rw [hmain]
    exact List.mem_filter.mpr ⟨hD, by simpa using hne⟩
  · intro E hE hEne
    rw [hmain]
    exact List.mem_filter.mpr ⟨hE, by simpa using hEne⟩

/-- Witness for `categories_delete_orphan_rule` on a concrete two-category
store. -/
theorem categories_delete_orphan_rule_witness :
    (catParent ∈ [catParent, catChild] ∧ catChild ∈ [catParent, catChild] ∧
      catChild.parentId = some catParent.id ∧ catChild.id ≠ catParent.id) ∧
    ∃ D2 ∈ (categoriesDeleteOrphan [catParent, catChild] catParent.id).2,
      D2.id = catChild.id ∧ D2.name = catChild.name ∧
        D2.slug = catChild.slug ∧ D2.parentId = none := by
  refine ⟨⟨by decide, by decide, by decide, by decide⟩, ?_⟩
  exact (categories_delete_orphan_rule [catParent, catChild] catParent catChild
    (by decide) (by decide) (by decide) (by decide)).1.2.1

/-! ## Deals: C6 -/

lemma mem_insertByNewest (p : Product) (l : List Product) (x : Product) :
    x ∈ insertByNewest p l ↔ x = p ∨ x ∈ l := by
  induction l with
  | nil => simp [insertByNewest]
  | cons q rest ih =>
    unfold insertByNewest
    by_cases h : q.createdAt ≤ p.createdAt
    · rw [if_pos h]
      simp [List.mem_cons]
    · rw [if_neg h]
      simp only [List.mem_cons, ih]
      tauto

lemma mem_sortByNewest (l : List Product) (x : Product) :
    x ∈ sortByNewest l ↔ x ∈ l := by
  induction l with
  | nil => simp [sortByNewest]
  | cons q rest ih =>
    unfold sortByNewest
    rw [mem_insertByNewest]
    simp [List.mem_cons, ih]

lemma length_insertByNewest (p : Product) (l : List Product) :
    (insertByNewest p l).length = l.length + 1 := by
  induction l with
  | nil => rfl
  | cons q rest ih =>
    unfold insertByNewest
    by_cases h : q.createdAt ≤ p.createdAt
    · rw [if_pos h]
      rfl
    · rw [if_neg h]
      simp [ih]

lemma length_sortByNewest (l : List Product) :
    (sortByNewest l).length = l.length := by
  induction l with
  | nil => rfl
  | cons q rest ih =>
    unfold sortByNewest
    rw [length_insertByNewest, ih]
    rfl

lemma pairwise_insertByNewest (p : Product) (l : List Product)
    (h : l.Pairwise (fun a b => b.createdAt ≤ a.createdAt)) :
    (insertByNewest p l).Pairwise (fun a b => b.createdAt ≤ a.createdAt) := by
  induction l with
  | nil => simp [insertByNewest]
  | cons q rest ih =>
    rw [List.pairwise_cons] at h
    unfold insertByNewest
    by_cases hle : q.createdAt ≤ p.createdAt
    · rw [if_pos hle]
      rw [List.pairwise_cons]
      refine ⟨?_, List.pairwise_cons.mpr h⟩
      intro x hx
      rcases List.mem_cons.mp hx with h1 | h1
      · subst h1
        exact hle
      · exact le_trans (h.1 x h1) hle
    · rw [if_neg hle]
      rw [List.pairwise_cons]
      refine ⟨?_, ih h.2⟩
      intro x hx
      rcases (mem_insertByNewest p rest x).mp hx with h1 | h1
      · subst h1
        omega
      · exact h.1 x h1

lemma pairwise_sortByNewest (l : List Product) :
    (sortByNewest l).Pairwise (fun a b => b.createdAt ≤ a.createdAt) := by
  induction l with
  | nil => simp [sortByNewest]
  | cons q rest ih =>
    unfold sortByNewest
    exact pairwise_insertByNewest q (sortByNewest rest) ih

/-- Eleven products that all qualify as deals, with distinct creation
times. -/
def elevenDeals : List Product :=
  (List.range 11).map
    (fun n => Product.mk "p" "Apple" "apple" (Pricing.mk 100 (some 80)) n 0 true)

/-- The oldest of `elevenDeals`. -/
def oldestDeal : Product :=
  Product.mk "p" "Apple" "apple" (Pricing.mk 100 (some 80)) 0 0 true

/-- C6 counterexample: with eleven qualifying products, the oldest one is a
deal yet does not appear in the `.limit(10)` result of
GET /api/products/deals, so membership is not equivalent to qualifying. -/
theorem deals_limit_drops_qualifying_product :
    oldestDeal ∈ elevenDeals ∧ isDeal oldestDeal = true ∧
    oldestDeal ∉ dealsHandler elevenDeals := by
  decide

/-- C6 (amended): every product returned by GET /api/products/deals is a
stored product with a present discount strictly below the regular price;
the result never holds more than ten products, and every qualifying
product left out is no newer than any returned one — so the handler
returns at most the ten newest qualifiers; whenever at most ten products
qualify, a product is returned iff it is stored and qualifies; discount 80
against regular 100 qualifies, discount equal to regular does not, and a
missing discount does not. -/
theorem deals_filter_characterisation (ps : List Product) :
    (∀ p ∈ dealsHandler ps, p ∈ ps ∧ isDeal p = true) ∧
    (dealsHandler ps).length ≤ 10 ∧
    (∀ q ∈ ps, isDeal q = true → q ∉ dealsHandler ps →
      ∀ p ∈ dealsHandler ps, q.createdAt ≤ p.createdAt) ∧
    ((ps.filter isDeal).length ≤ 10 →
      ∀ p, p ∈ dealsHandler ps ↔ p ∈ ps ∧ isDeal p = true) ∧
    isDeal (Product.mk "d1" "A" "a" (Pricing.mk 100 (some 80)) 0 0 true) =
      true ∧
    isDeal (Product.mk "d2" "B" "b" (Pricing.mk 100 (some 100)) 0 0 true) =
      false ∧
    isDeal (Product.mk "d3" "C" "c" (Pricing.mk 100 none) 0 0 true) = false := by
  refine ⟨?_, ?_, ?_, ?_, by decide, by decide, by decide⟩
  · intro p hp
    have hp2 : p ∈ sortByNewest (ps.filter isDeal) :=
      List.take_subset 10 _ hp
    rw [mem_sortByNewest] at hp2
    exact List.mem_filter.mp hp2
  · unfold dealsHandler
    rw [List.length_take]
    exact min_le_left _ _
  · intro q hq hdeal hnot p hp
    have hpair := pairwise_sortByNewest (ps.filter isDeal)
    rw [← List.take_append_drop 10 (sortByNewest (ps.filter isDeal))] at hpair
    rcases List.pairwise_append.mp hpair with ⟨-, -, hcross⟩
    have hqs : q ∈ sortByNewest (ps.filter isDeal) := by
      rw [mem_sortByNewest]
      exact List.mem_filter.mpr ⟨hq, hdeal⟩
    rw [← List.take_append_drop 10 (sortByNewest (ps.filter isDeal))] at hqs
    rcases List.mem_append.mp hqs with h1 | h1
    · exact absurd h1 hnot
    · exact hcross p hp q h1
  · intro hlen p
    have htake : dealsHandler ps = sortByNewest (ps.filter isDeal) := by
      unfold dealsHandler
      apply List.take_of_length_le
      rw [length_sortByNewest]
      exact hlen
    rw [htake, mem_sortByNewest, List.mem_filter]

/-- Witness for `deals_filter_characterisation`: the completeness clause on
a concrete two-product catalog with at most ten qualifiers, and the
recency clause on the eleven-deal catalog where the oldest qualifier is
dropped by the limit. -/
theorem deals_filter_characterisation_witness :
    ((([Product.mk "d1" "A" "a" (Pricing.mk 100 (some 80)) 5 0 true,
        Product.mk "d3" "C" "c" (Pricing.mk 100 none) 9 0 true].filter
          isDeal).length ≤ 10) ∧
      ∀ p, p ∈ dealsHandler
          [Product.mk "d1" "A" "a" (Pricing.mk 100 (some 80)) 5 0 true,
            Product.mk "d3" "C" "c" (Pricing.mk 100 none) 9 0 true] ↔
        p ∈ [Product.mk "d1" "A" "a" (Pricing.mk 100 (some 80)) 5 0 true,
            Product.mk "d3" "C" "c" (Pricing.mk 100 none) 9 0 true] ∧
          isDeal p = true) ∧
    (oldestDeal ∈ elevenDeals ∧ isDeal oldestDeal = true ∧
      oldestDeal ∉ dealsHandler elevenDeals ∧
      ∀ p ∈ dealsHandler elevenDeals,
        oldestDeal.createdAt ≤ p.createdAt) := by
  constructor
  · exact ⟨by decide,
      (deals_filter_characterisation
        [Product.mk "d1" "A" "a" (Pricing.mk 100 (some 80)) 5 0 true,
          Product.mk "d3" "C" "c" (Pricing.mk 100 none) 9 0 true]).2.2.2.1
        (by decide)⟩
  · refine ⟨by decide, by decide, by decide, ?_⟩
    exact (deals_filter_characterisation elevenDeals).2.2.1 oldestDeal
      (by decide) (by decide) (by decide)

/-! ## Orders lemmas -/

lemma foldl_orderStep_acc (lines : List (Option Product × Int))
    (acc : List OrderItem × Int) :
    lines.foldl orderStep acc =
      (acc.1 ++ (orderLoop lines).1, acc.2 + (orderLoop lines).2) := by
  induction lines generalizing acc with
  | nil => simp [orderLoop]
  | cons l t ih =>
    rw [List.foldl_cons, ih (orderStep acc l)]
    conv_rhs =>
      rw [show orderLoop (l :: t) =
        ((orderStep ([], 0) l).1 ++ (orderLoop t).1,
          (orderStep ([], 0) l).2 + (orderLoop t).2) from by
        unfold orderLoop
        rw [List.foldl_cons, ih (orderStep ([], 0) l)]
        rfl]
    cases hl : l.1 with
    | some p => simp [orderStep, hl, List.append_assoc, add_assoc, orderLoop]
    | none => simp [orderStep, hl, orderLoop]

lemma orderLoop_cons (l : Option Product × Int)
    (t : List (Option Product × Int)) :
    orderLoop (l :: t) =
      ((orderStep ([], 0) l).1 ++ (orderLoop t).1,
        (orderStep ([], 0) l).2 + (orderLoop t).2) := by
  unfold orderLoop
  rw [List.foldl_cons, foldl_orderStep_acc]
  rfl

lemma orderLoop_items (lines : List (Option Product × Int)) :
    (orderLoop lines).1 = lines.filterMap
      (fun line => Option.map
        (fun p => OrderItem.mk p.id line.2
          (jsOrPrice p.pricing.discount p.pricing.regular)) line.1) := by
  induction lines with
  | nil => rfl
  | cons l t ih =>
    rw [orderLoop_cons, List.filterMap_cons]
    cases hl : l.1 with
    | some p => simp [orderStep, hl, ih]
    | none => simp [orderStep, hl, ih]

lemma orderLoop_total (lines : List (Option Product × Int)) :
    (orderLoop lines).2 =
      ((orderLoop lines).1.map (fun it => it.price * it.quantity)).sum := by
  induction lines with
  | nil => rfl
  | cons l t ih =>
    cases hl : l.1 with
    | some p => simp [orderLoop_cons, orderStep, hl, ih]
    | none => simp [orderLoop_cons, orderStep, hl, ih]

lemma ordersPost_success (db : DB) (email shipping : String) (user : User)
    (hf : db.users.find? (fun u => u.email = email) = some user)
    (hne : user.cart ≠ []) :
    ordersPost db email shipping =
      (201,
        { db with
          orders := db.orders ++ [⟨user.id,
            (orderLoop (user.cart.map (resolveLine db.products))).1,
            (orderLoop (user.cart.map (resolveLine db.products))).2,
            shipping, "pending", "pending"⟩],
          users := db.users.map
            (fun u => if u.id = user.id then { u with cart := [] } else u) }) := by
  unfold ordersPost
  simp only [hf]
  rw [if_neg (by simpa [List.isEmpty_iff] using hne)]

/-! ## Orders: concrete fixtures -/

/-- A stored product with a genuine discount. -/
def berry : Product := ⟨"p2", "Berry", "berry", ⟨50, some 30⟩, 1, 7, true⟩

/-- A caller whose cart holds two units of `berry`. -/
def buyer : User :=
  ⟨"u2", "uid2", "Ann", "ann@mail", "018", none, "user", [⟨"p2", 2⟩], ["w1"]⟩

/-- Store for the successful-order runs. -/
def shopDB : DB := ⟨[buyer], [berry], []⟩

/-- A product whose discount field is present but exactly 0. -/
def zeroDiscountProduct : Product :=
  ⟨"p1", "Choco", "choco", ⟨100, some 0⟩, 0, 5, true⟩

/-- A caller holding one unit of `zeroDiscountProduct`. -/
def cexBuyer : User :=
  ⟨"u1", "uid1", "Bob", "bob@mail", "017", none, "user", [⟨"p1", 1⟩], []⟩

/-- Store for the zero-discount counterexample run. -/
def cexDB : DB := ⟨[cexBuyer], [zeroDiscountProduct], []⟩

/-- A caller with an empty cart. -/
def emptyCartUser : User :=
  ⟨"u3", "uid3", "Eve", "eve@mail", "019", none, "user", [], []⟩

/-- Store for the empty-cart run. -/
def emptyCartDB : DB := ⟨[emptyCartUser], [berry], []⟩

/-- A caller whose only cart line references a product id that is not in
the store. -/
def ghostBuyer : User :=
  ⟨"u4", "uid4", "Gil", "gil@mail", "020", none, "user", [⟨"nope", 2⟩], []⟩

/-- Store for the unresolved-reference run. -/
def ghostDB : DB := ⟨[ghostBuyer], [berry], []⟩

/-! ## C7: empty cart rejected with no state change -/

/-- C7: when every stored user matching the caller's email has an empty
cart (in particular when no user matches at all), POST /api/orders answers
400 and returns the store untouched — no order is created and no document
is modified. -/
theorem orders_post_rejects_empty_cart (db : DB) (email shipping : String)
    (h : ∀ user ∈ db.users, user.email = email → user.cart = []) :
    ordersPost db email shipping = (400, db) := by
  unfold ordersPost
  cases hf : db.users.find? (fun u => u.email = email) with
  | none => simp [hf]
  | some u =>
    have hmem := List.mem_of_find?_eq_some hf
    have heq : u.email = email := by simpa using List.find?_some hf
    have hc : u.cart = [] := h u hmem heq
    simp [hf, hc]

/-- Witness for `orders_post_rejects_empty_cart` on a store whose only
matching user has an empty cart. -/
theorem orders_post_rejects_empty_cart_witness :
    (∀ user ∈ emptyCartDB.users, user.email = "eve@mail" →
      user.cart = []) ∧
    ordersPost emptyCartDB "eve@mail" "addr" = (400, emptyCartDB) :=
  ⟨by decide,
    orders_post_rejects_empty_cart emptyCartDB "eve@mail" "addr" (by decide)⟩

/-! ## C8: success clears exactly the caller's cart -/

/-- C8: a successful POST /api/orders rewrites the Users collection by
clearing the caller's cart and leaving every other user document
untouched, and the caller's rewritten document agrees with the old one on
every field except `cart`, which becomes empty. -/
theorem orders_post_clears_only_cart (db : DB) (email shipping : String)
    (user : User)
    (hf : db.users.find? (fun u => u.email = email) = some user)
    (hne : user.cart ≠ []) :
    (ordersPost db email shipping).1 = 201 ∧
    (ordersPost db email shipping).2.users =
      db.users.map
        (fun u => if u.id = user.id then { u with cart := [] } else u) ∧
    ∀ u ∈ db.users, u.id = user.id →
      ∃ u2 ∈ (ordersPost db email shipping).2.users,
        u2.cart = [] ∧ u2.id = u.id ∧ u2.uid = u.uid ∧ u2.name = u.name ∧
          u2.email = u.email ∧ u2.phone = u.phone ∧ u2.image = u.image ∧
          u2.role = u.role ∧ u2.wishlist = u.wishlist := by
  rw [ordersPost_success db email shipping user hf hne]
  refine ⟨rfl, rfl, ?_⟩
  intro u hu hid
  refine ⟨{ u with cart := [] }, ?_, rfl, rfl, rfl, rfl, rfl, rfl, rfl, rfl,
    rfl⟩
  have hmm := List.mem_map_of_mem
    (fun v => if v.id = user.id then { v with cart := [] } else v) hu
  simpa [hid] using hmm

/-- Witness for `orders_post_clears_only_cart` on the concrete store. -/
theorem orders_post_clears_only_cart_witness :
    (shopDB.users.find? (fun u => u.email = "ann@mail") = some buyer ∧
      buyer.cart ≠ []) ∧
    (ordersPost shopDB "ann@mail" "addr").2.users =
      shopDB.users.map
        (fun u => if u.id = buyer.id then { u with cart := [] } else u) :=
  ⟨⟨by decide, by decide⟩,
    (orders_post_clears_only_cart shopDB "ann@mail" "addr" buyer (by decide)
      (by decide)).2.1⟩

/-! ## C9: unresolved cart lines are skipped -/

/-- C9: on a successful POST /api/orders the created order's items are
exactly the cart lines whose product reference resolves (unresolved lines
are silently omitted); when no line resolves, an order with no items and
totalAmount 0 is still created and the cart is still cleared. -/
theorem orders_post_skips_unresolved_lines (db : DB) (email shipping : String)
    (user : User)
    (hf : db.users.find? (fun u => u.email = email) = some user)
    (hne : user.cart ≠ []) :
    (ordersPost db email shipping).1 = 201 ∧
    ∃ o : Order,
      (ordersPost db email shipping).2.orders = db.orders ++ [o] ∧
      o.items = user.cart.filterMap (fun ci =>
        Option.map
          (fun p => OrderItem.mk p.id ci.quantity
            (jsOrPrice p.pricing.discount p.pricing.regular))
          (db.products.find? (fun p => p.id = ci.product))) ∧
      ((∀ ci ∈ user.cart,
          db.products.find? (fun p => p.id = ci.product) = none) →
        o.items = [] ∧ o.totalAmount = 0) ∧
      ∃ u2 ∈ (ordersPost db email shipping).2.users,
        u2.id = user.id ∧ u2.cart = [] := by
  rw [ordersPost_success db email shipping user hf hne]
  have hitems : (orderLoop (user.cart.map (resolveLine db.products))).1 =
      user.cart.filterMap (fun ci =>
        Option.map
          (fun p => OrderItem.mk p.id ci.quantity
            (jsOrPrice p.pricing.discount p.pricing.regular))
          (db.products.find? (fun p => p.id = ci.product))) := by
    rw [orderLoop_items, List.filterMap_map]
    rfl
  refine ⟨rfl, _, rfl, hitems, ?_, ?_⟩
  · intro hall
    have hnil : (orderLoop (user.cart.map (resolveLine db.products))).1 = [] := by
      rw [hitems, List.filterMap_eq_nil_iff]
      intro ci hci
      rw [hall ci hci]
      rfl
    constructor
    · exact hnil
    · rw [orderLoop_total, hnil]
      rfl
  · refine ⟨{ user with cart := [] }, ?_, rfl, rfl⟩
    have hmem := List.mem_of_find?_eq_some hf
    have hmm := List.mem_map_of_mem
      (fun v => if v.id = user.id then { v with cart := [] } else v) hmem
    simpa using hmm

/-- Witness for `orders_post_skips_unresolved_lines` on a store where the
only cart line references a missing product. -/
theorem orders_post_skips_unresolved_lines_witness :
    (ghostDB.users.find? (fun u => u.email = "gil@mail") = some ghostBuyer ∧
      ghostBuyer.cart ≠ []) ∧
    (ordersPost ghostDB "gil@mail" "addr").1 = 201 :=
  ⟨⟨by decide, by decide⟩,
    (orders_post_skips_unresolved_lines ghostDB "gil@mail" "addr" ghostBuyer
      (by decide) (by decide)).1⟩

/-! ## C1: order totals and captured prices -/

/-- C1 counterexample: `zeroDiscountProduct` has its discount set (to 0),
yet the created order stores price 100 — the regular price — because the
handler uses JS `||`, so the claim "price is the discount price if set" is
false at discount 0. -/
theorem order_item_price_ignores_zero_discount :
    zeroDiscountProduct.pricing.discount = some 0 ∧
    (ordersPost cexDB "bob@mail" "addr").2.orders =
      [Order.mk "u1" [OrderItem.mk "p1" 1 100] 100 "addr" "pending"
        "pending"] ∧
    (100 : Int) ≠ 0 := by
  decide

/-- C1 (amended): every successful POST /api/orders appends one order whose
totalAmount is the sum of price times quantity over its items, where each
item's price is the resolved product's discount price when set and nonzero
(JS truthiness) and the regular price otherwise, all captured at creation
time; later product-pricing updates never touch stored orders. -/
theorem order_total_and_frozen_prices (db : DB) (email shipping : String)
    (user : User)
    (hf : db.users.find? (fun u => u.email = email) = some user)
    (hne : user.cart ≠ []) :
    (ordersPost db email shipping).1 = 201 ∧
    (∃ o : Order,
      (ordersPost db email shipping).2.orders = db.orders ++ [o] ∧
      o.totalAmount = (o.items.map (fun it => it.price * it.quantity)).sum ∧
      ∀ it ∈ o.items, ∃ p ∈ db.products, p.id = it.product ∧
        it.price = jsOrPrice p.pricing.discount p.pricing.regular) ∧
    ∀ (db2 : DB) (pid : String) (pr : Pricing),
      (updateProductPricing db2 pid pr).orders = db2.orders := by
  rw [ordersPost_success db email shipping user hf hne]
  refine ⟨rfl, ⟨_, rfl, orderLoop_total _, ?_⟩, fun db2 pid pr => rfl⟩
  intro it hit
  rw [orderLoop_items] at hit
  rcases List.mem_filterMap.mp hit with ⟨line, hline, hmap⟩
  rcases List.mem_map.mp hline with ⟨ci, hci, hres⟩
  rcases Option.map_eq_some'.mp hmap with ⟨p, hp1, hp2⟩
  subst hp2
  refine ⟨p, ?_, rfl, rfl⟩
  rw [← hres] at hp1
  exact List.mem_of_find?_eq_some hp1

/-- Witness for `order_total_and_frozen_prices` on the concrete store. -/
theorem order_total_and_frozen_prices_witness :
    (shopDB.users.find? (fun u => u.email = "ann@mail") = some buyer ∧
      buyer.cart ≠ []) ∧
    (ordersPost shopDB "ann@mail" "addr").1 = 201 :=
  ⟨⟨by decide, by decide⟩,
    (order_total_and_frozen_prices shopDB "ann@mail" "addr" buyer (by decide)
      (by decide)).1⟩

/-! ## Slug lemmas: C5 -/

lemma natToDigitChars_ne_nil (n : Nat) : natToDigitChars n ≠ [] := by
  unfold natToDigitChars
  by_cases h : n = 0
  · simp [h]
  · rw [if_neg h]
    intro hc
    have hlen := congrArg List.length hc
    simp only [List.length_map, List.length_reverse, List.length_nil] at hlen
    exact Nat.digits_ne_nil_iff_ne_zero.mpr h (List.length_eq_zero.mp hlen)

lemma natToDigitChars_all_digits (n : Nat) :
    ∀ c ∈ natToDigitChars n, c.isDigit = true := by
  intro c hc
  unfold natToDigitChars at hc
  by_cases h : n = 0
  · rw [if_pos h] at hc
    have : c = '0' := by simpa using hc
    subst this
    decide
  · rw [if_neg h] at hc
    rcases List.mem_map.mp hc with ⟨d, hd, hcd⟩
    have hd10 : d < 10 :=
      Nat.digits_lt_base (by norm_num) (List.mem_reverse.mp hd)
    rw [← hcd]
    exact (by decide : ∀ e < 10, (Char.ofNat (48 + e)).isDigit = true) d hd10

/-- Recover the number encoded by a decimal character string. -/
def digitCharsVal (l : List Char) : Nat :=
  l.foldl (fun acc c => 10 * acc + (c.toNat - 48)) 0

lemma foldl_base10_reverse (l : List Nat) :
    l.reverse.foldl (fun acc d => 10 * acc + d) 0 = Nat.ofDigits 10 l := by
  induction l with
  | nil => rfl
  | cons d t ih =>
    rw [List.reverse_cons, List.foldl_append, ih, Nat.ofDigits_cons]
    simp only [List.foldl_cons, List.foldl_nil]
    omega

lemma foldl_congr_mem {α β : Type} (f g : β → α → β) (l : List α) (b : β)
    (h : ∀ x ∈ l, ∀ acc, f acc x = g acc x) : l.foldl f b = l.foldl g b := by
  induction l generalizing b with
  | nil => rfl
  | cons a t ih =>
    rw [List.foldl_cons, List.foldl_cons, h a (List.mem_cons_self _ _)]
    exact ih _ (fun x hx acc => h x (List.mem_cons_of_mem _ hx) acc)

lemma digitCharsVal_natToDigitChars (n : Nat) :
    digitCharsVal (natToDigitChars n) = n := by
  unfold natToDigitChars digitCharsVal
  by_cases h : n = 0
  · rw [if_pos h, h]
    decide
  · rw [if_neg h, List.foldl_map]
    have hco : ∀ d ∈ (Nat.digits 10 n).reverse, ∀ acc : Nat,
        10 * acc + ((Char.ofNat (48 + d)).toNat - 48) = 10 * acc + d := by
      intro d hd acc
      have hd10 : d < 10 :=
        Nat.digits_lt_base (by norm_num) (List.mem_reverse.mp hd)
      have hval :=
        (by decide : ∀ e < 10, (Char.ofNat (48 + e)).toNat - 48 = e) d hd10
      rw [hval]
    rw [foldl_congr_mem _ (fun acc d => 10 * acc + d) _ 0 hco]
    rw [foldl_base10_reverse, Nat.ofDigits_digits]

lemma natToDigitChars_inj {a b : Nat}
    (h : natToDigitChars a = natToDigitChars b) : a = b := by
  have hv := congrArg digitCharsVal h
  rwa [digitCharsVal_natToDigitChars, digitCharsVal_natToDigitChars] at hv

lemma mem_squashRuns (p : Char → Bool) (flag : Bool) (l : List Char)
    (c : Char) (h : c ∈ squashRuns p flag l) :
    c = '-' ∨ (c ∈ l ∧ p c = false) := by
  induction l generalizing flag with
  | nil => simp [squashRuns] at h
  | cons a t ih =>
    unfold squashRuns at h
    by_cases hp : p a = true
    · rw [if_pos hp] at h
      rcases List.mem_append.mp h with h1 | h1
      · left
        cases flag with
        | true => simp at h1
        | false => simpa using h1
      · rcases ih true h1 with h2 | h2
        · exact Or.inl h2
        · exact Or.inr ⟨List.mem_cons_of_mem _ h2.1, h2.2⟩
    · rw [if_neg hp] at h
      rcases List.mem_cons.mp h with h1 | h1
      · subst h1
        exact Or.inr ⟨List.mem_cons_self _ _, by simpa using hp⟩
      · rcases ih false h1 with h2 | h2
        · exact Or.inl h2
        · exact Or.inr ⟨List.mem_cons_of_mem _ h2.1, h2.2⟩

lemma isSlugChar_of_baseSlug (name : List Char) :
    ∀ c ∈ baseSlug name, isSlugChar c = true := by
  intro c hc
  unfold baseSlug at hc
  rcases mem_squashRuns _ _ _ _ hc with h | ⟨hc2, hnh⟩
  · subst h
    decide
  · rcases mem_squashRuns _ _ _ _ hc2 with h | ⟨hc3, hns⟩
    · subst h
      simp at hnh
    · have hk := (List.mem_filter.mp hc3).2
      unfold isKeep at hk
      unfold isSlugChar
      rw [hns] at hk
      simp only [Bool.or_eq_true] at hk ⊢
      tauto

/-- C5: for every name whose sanitised base is non-empty (the reading of
"valid" forced by the algorithm — e.g. a name of only punctuation sanitises
to nothing), `generateSlug` produces a string matching `^[a-z0-9-]+-\d+$`,
and two calls on the same name at different milliseconds produce different
slugs. -/
theorem generate_slug_pattern_and_distinct (name : List Char) (t1 t2 : Nat)
    (hvalid : baseSlug name ≠ []) :
    MatchesSlugPattern (generateSlug name t1) ∧
    (t1 ≠ t2 → generateSlug name t1 ≠ generateSlug name t2) := by
  constructor
  · exact ⟨baseSlug name, natToDigitChars t1, rfl, hvalid,
      isSlugChar_of_baseSlug name, natToDigitChars_ne_nil t1,
      natToDigitChars_all_digits t1⟩
  · intro hne heq
    apply hne
    apply natToDigitChars_inj
    have h2 := List.append_cancel_left heq
    injection h2

/-- Witness for `generate_slug_pattern_and_distinct` on a concrete name and
timestamps. -/
theorem generate_slug_pattern_and_distinct_witness :
    baseSlug ['f', 'o', 'o', 'd'] ≠ [] ∧
    MatchesSlugPattern (generateSlug ['f', 'o', 'o', 'd'] 5) :=
  ⟨by decide,
    (generate_slug_pattern_and_distinct ['f', 'o', 'o', 'd'] 5 6
      (by decide)).1⟩

end ReadyFoodFarm
